import Mathlib

/-!
Verification development for a LOBSTER-style limit-order-book analysis
pipeline and market-making backtest.

The Python sources are shallowly embedded:

* `Analysis` — `src/analysis/clean_validate.py` (sentinels, `sanity_checks`)
  and `src/analysis/features.py` (`compute_features` with its rolling
  helpers).  A pandas frame becomes a `List Row`; float NaN (produced by
  sentinel masking and 0/0 divisions) becomes `Option` with `none` as the
  missing marker; float arithmetic is exact rational arithmetic.
* `Labels` — `src/analysis/labels.py` (`generate_labels`).
* `LoadLobster` — `src/analysis/load_lobster.py` at row-count granularity
  (CSV parsing itself is plain I/O); raising becomes `Except.error`.
* `Strategy` — `src/strategy.py`: the Avellaneda-Stoikov closed forms, the
  warm-up buffer discipline and the trade-settlement fold of `run_backtest`
  (the external matching engine is opaque, so the trades returned by one
  `match()` call are a parameter).
-/

namespace Analysis

/-- Sentinel price for an absent bid level (`clean_validate.DUMMY_BID`). -/
def DUMMY_BID : Int := -9999999999

/-- Sentinel price for an absent ask level (`clean_validate.DUMMY_ASK`). -/
def DUMMY_ASK : Int := 9999999999

/-- One aligned row: message fields plus the depth snapshot's level columns
(`bid_price_1.. , bid_size_1.. , ask_price_1.. , ask_size_1..`). -/
structure Row where
  time_ns : Int
  event_type : Int
  size : Int
  direction : Int
  bid_prices : List Int
  bid_sizes : List Int
  ask_prices : List Int
  ask_sizes : List Int
  deriving DecidableEq, Inhabited

/-- Source `_mask_dummy_prices` on the bid side: the sentinel becomes missing. -/
def maskBid (p : Int) : Option Int := if p = DUMMY_BID then none else some p

/-- Source `_mask_dummy_prices` on the ask side. -/
def maskAsk (p : Int) : Option Int := if p = DUMMY_ASK then none else some p

/-- Float division with the 0 denominator producing a non-finite value,
modelled as the missing marker (pandas/numpy `x / 0` never yields a real
number; downstream code treats it as undefined). -/
def nandiv (a b : ℚ) : Option ℚ := if b = 0 then none else some (a / b)

/-- Level-1 bid price after masking (`bid_prices[:, 0]`). -/
def bestBidOf (r : Row) : Option Int := maskBid (r.bid_prices.getD 0 0)

/-- Level-1 ask price after masking (`ask_prices[:, 0]`). -/
def bestAskOf (r : Row) : Option Int := maskAsk (r.ask_prices.getD 0 0)

/-- Source `mid = (best_bid + best_ask) / 2`, missing when either side is. -/
def midOf (r : Row) : Option ℚ :=
  match bestBidOf r, bestAskOf r with
  | some b, some a => some (((b : ℚ) + (a : ℚ)) / 2)
  | _, _ => none

/-- Source `spread = best_ask - best_bid`, missing when either side is. -/
def spreadOf (r : Row) : Option ℚ :=
  match bestBidOf r, bestAskOf r with
  | some b, some a => some ((a : ℚ) - (b : ℚ))
  | _, _ => none

/-- Level-1 bid size (`bid_sizes[:, 0]`). -/
def bidSize1 (r : Row) : Int := r.bid_sizes.getD 0 0

/-- Level-1 ask size (`ask_sizes[:, 0]`). -/
def askSize1 (r : Row) : Int := r.ask_sizes.getD 0 0

/-- Source `level1_imbalance = (bid_size_1 - ask_size_1) / (bid_size_1 + ask_size_1)`;
0/0 is missing. -/
def level1ImbOf (r : Row) : Option ℚ :=
  nandiv ((bidSize1 r : ℚ) - (askSize1 r : ℚ)) ((bidSize1 r : ℚ) + (askSize1 r : ℚ))

/-- Source `_topk_depth` on the bid side: `np.nansum(sizes[:, :k])`.  The size
columns are the raw integer sizes (they are never masked, so the `nansum`
meets no NaN): the sum is over the stored sizes of the first
`min k num_levels` levels, sentinel-priced or not. -/
def depthTopkBidOf (r : Row) (numLevels k : Nat) : Int :=
  ((r.bid_sizes.take numLevels).take k).sum

/-- Source `_topk_depth` on the ask side. -/
def depthTopkAskOf (r : Row) (numLevels k : Nat) : Int :=
  ((r.ask_sizes.take numLevels).take k).sum

/-- Source `topk_imbalance` from the two depth aggregates; 0/0 is missing. -/
def topkImbOf (r : Row) (numLevels k : Nat) : Option ℚ :=
  nandiv ((depthTopkBidOf r numLevels k : ℚ) - (depthTopkAskOf r numLevels k : ℚ))
    ((depthTopkBidOf r numLevels k : ℚ) + (depthTopkAskOf r numLevels k : ℚ))

/-- Source `microprice = (best_bid * ask_size_1 + best_ask * bid_size_1) /
(bid_size_1 + ask_size_1)`; missing when a side is missing or the
denominator is 0. -/
def micropriceOf (r : Row) : Option ℚ :=
  match bestBidOf r, bestAskOf r with
  | some b, some a =>
      nandiv ((b : ℚ) * (askSize1 r : ℚ) + (a : ℚ) * (bidSize1 r : ℚ))
        ((bidSize1 r : ℚ) + (askSize1 r : ℚ))
  | _, _ => none

/-- The `while time_ns[left] < t - window_ns` advance of `_rolling_event_rate`.
The source loop is unguarded, but for a nonnegative window it can never move
past the current index (`time_ns[idx] < time_ns[idx] - window_ns` is false),
so the loop body runs at most `idx - left` times; that bound is the fuel. -/
def advLAux (t : List Int) (bound : Int) (idx : Nat) : Nat → Nat → Nat
  | 0, left => left
  | fuel + 1, left =>
      if left < idx then
        if t.getD left 0 < bound then advLAux t bound idx fuel (left + 1) else left
      else left

/-- The left pointer after processing index `idx` with incoming pointer `left`. -/
def advL (t : List Int) (bound : Int) (idx left : Nat) : Nat :=
  advLAux t bound idx (idx - left) left

/-- The loop body of `_rolling_event_rate`, emitting the window count
`idx - left + 1` for each index from `idx` on; one unit of fuel per index
(`t.length - idx` steps remain). -/
def erGoAux (t : List Int) (W : Int) : Nat → Nat → Nat → List Nat
  | 0, _, _ => []
  | fuel + 1, idx, left =>
      if idx < t.length then
        (idx - advL t (t.getD idx 0 - W) idx left + 1) ::
          erGoAux t W fuel (idx + 1) (advL t (t.getD idx 0 - W) idx left)
      else []

/-- The per-index window counts of `_rolling_event_rate` (two-pointer sweep,
`left` starting at 0). -/
def erCounts (t : List Int) (W : Int) : List Nat := erGoAux t W t.length 0 0

/-- Source `_rolling_event_rate`: each window count divided by the window length in
seconds (`window_ns / 1e9`). -/
def rolling_event_rate (t : List Int) (W : Int) : List ℚ :=
  (erCounts t W).map (fun (c : Nat) => (c : ℚ) / ((W : ℚ) / 1000000000))

/-- Default window of `_rolling_event_rate`: `int(1e9)` nanoseconds. -/
def window_ns : Int := 1000000000

/-- The `time_ns` column. -/
def times (df : List Row) : List Int := df.map (·.time_ns)

/-- Brute-force reference for the event rate's window count: the number of
events `j ≤ i` with `time[j] ≥ time[i] - window`. -/
def bruteCount (t : List Int) (W : Int) (i : Nat) : Nat :=
  ((List.range (i + 1)).filter (fun j => decide (t.getD i 0 - W ≤ t.getD j 0))).length

/-- Sign lookup of the signed-flow term: +1 for new orders (type 1), -1 for
types 2-5, 0 otherwise (`np.select` in `compute_features`). -/
def eventSign (et : Int) : Int :=
  if et = 1 then 1 else if et = 2 ∨ et = 3 ∨ et = 4 ∨ et = 5 then -1 else 0

/-- Source `signed_flow = direction * size * sign`. -/
def signedFlowOf (r : Row) : Int := r.direction * r.size * eventSign r.event_type

/-- First index of the trailing fixed-count window of width `w` ending at `i`. -/
def windowStart (i w : Nat) : Nat := i + 1 - min (i + 1) w

/-- Source `_rolling_sum(series, window=100)` with `min_periods=1`: the flow column
has no missing values, so this is the plain sum of the last
`min (i+1) 100` entries. -/
def orderFlowImbAt (df : List Row) (i : Nat) : Int :=
  ((List.range' (windowStart i 100) (min (i + 1) 100)).map
    (fun j => signedFlowOf (df.getD j default))).sum

/-- Source `mid` at index `i` of the frame. -/
def midAt (df : List Row) (i : Nat) : Option ℚ := midOf (df.getD i default)

/-- Source `mid_series.pct_change().fillna(0.0)`: `(mid[i] - mid[i-1]) / mid[i-1]`,
with the first row and any NaN operand filled with 0.  A zero previous mid
gives a non-finite float which never survives to a finite feature value;
it is modelled by the same 0 fill. -/
def midRetAt (df : List Row) (i : Nat) : ℚ :=
  if i = 0 then 0
  else
    match midAt df (i - 1), midAt df i with
    | some p, some c => if p = 0 then 0 else (c - p) / p
    | _, _ => 0

/-- Mean of a sample. -/
def sampleMean (xs : List ℚ) : ℚ := xs.sum / (xs.length : ℚ)

/-- Sample variance with `ddof = 1` (the square of pandas' rolling `std`). -/
def sampleVar (xs : List ℚ) : ℚ :=
  ((xs.map (fun x => (x - sampleMean xs) ^ 2)).sum) / ((xs.length : ℚ) - 1)

/-- Source `_rolling_std(mid_ret, window=100)` squared: `min_periods=2` makes row 0
(a one-element window) the NaN that `fillna(0.0)` turns into 0. -/
def realizedVarAt (df : List Row) (i : Nat) : ℚ :=
  if i = 0 then 0
  else sampleVar ((List.range' (windowStart i 100) (min (i + 1) 100)).map (midRetAt df))

/-- Source `realized_volatility`: the rolling standard deviation itself. -/
noncomputable def realizedVolAt (df : List Row) (i : Nat) : ℝ :=
  Real.sqrt ((realizedVarAt df i : ℚ) : ℝ)

/-- One row of the frame returned by `compute_features`: the copied input row
plus the derived columns. -/
structure FeatureRow where
  base : Row
  best_bid : Option Int
  best_ask : Option Int
  mid : Option ℚ
  spread : Option ℚ
  level1_imbalance : Option ℚ
  topk_imbalance : Option ℚ
  depth_topk_bid : Int
  depth_topk_ask : Int
  depth_total_topk : Int
  microprice : Option ℚ
  event_rate : ℚ
  order_flow_imbalance : Int
  realized_volatility : ℝ

instance : Inhabited FeatureRow :=
  ⟨⟨default, none, none, none, none, none, none, 0, 0, 0, none, 0, 0, 0⟩⟩

/-- Row `i` of `compute_features df num_levels topk`. -/
noncomputable def featureRowAt (df : List Row) (numLevels k : Nat) (i : Nat) : FeatureRow :=
  { base := df.getD i default
    best_bid := bestBidOf (df.getD i default)
    best_ask := bestAskOf (df.getD i default)
    mid := midOf (df.getD i default)
    spread := spreadOf (df.getD i default)
    level1_imbalance := level1ImbOf (df.getD i default)
    topk_imbalance := topkImbOf (df.getD i default) numLevels k
    depth_topk_bid := depthTopkBidOf (df.getD i default) numLevels k
    depth_topk_ask := depthTopkAskOf (df.getD i default) numLevels k
    depth_total_topk :=
      depthTopkBidOf (df.getD i default) numLevels k +
        depthTopkAskOf (df.getD i default) numLevels k
    microprice := micropriceOf (df.getD i default)
    event_rate := (rolling_event_rate (times df) window_ns).getD i 0
    order_flow_imbalance := orderFlowImbAt df i
    realized_volatility := realizedVolAt df i }

/-- Source `compute_features`: copies the frame and appends the derived columns. -/
noncomputable def compute_features (df : List Row) (numLevels k : Nat) : List FeatureRow :=
  (List.range df.length).map (featureRowAt df numLevels k)

end Analysis

namespace Labels

/-- The two columns of the feature frame that `generate_labels` reads
(`labeled["mid"]`, `labeled["spread"]`); both may be missing. -/
structure MidRow where
  mid : Option ℚ
  spread : Option ℚ
  deriving DecidableEq, Inhabited

/-- Source `future_mid - mid` with `future_mid = mid.shift(-h)`: the mid `h` rows
ahead, missing beyond the end of the frame, minus the current mid; missing
when either operand is. -/
def rawMoveAt (df : List MidRow) (h : Nat) (i : Nat) : Option ℚ :=
  match (df.getD (i + h) default).mid, (df.getD i default).mid with
  | some f, some m => some (f - m)
  | _, _ => none

/-- Source `threshold = np.maximum(spread / 2.0, 1)`; NaN propagates through
`np.maximum`, so a missing spread gives a missing threshold. -/
def thresholdAt (df : List MidRow) (i : Nat) : Option ℚ :=
  ((df.getD i default).spread).map (fun s => max (s / 2) 1)

/-- Source `np.where(raw_move > threshold, 1, np.where(raw_move < -threshold, -1, 0))`:
comparisons against NaN are false, so any missing operand yields 0. -/
def labelAt (df : List MidRow) (h : Nat) (i : Nat) : Int :=
  match rawMoveAt df h i, thresholdAt df i with
  | some r, some th => if th < r then 1 else if r < -th then -1 else 0
  | _, _ => 0

/-- One output row: the copied input row plus, per horizon in order, the
`(raw_move_H, label_H)` pair. -/
structure LabeledRow where
  base : MidRow
  labels : List (Option ℚ × Int)
  deriving DecidableEq, Inhabited

/-- Source `generate_labels`: copies the frame and appends, for each horizon, the
`raw_move_H{h}` and `label_H{h}` columns. -/
def generate_labels (df : List MidRow) (horizons : List Nat) : List LabeledRow :=
  (List.range df.length).map (fun i =>
    { base := df.getD i default
      labels := horizons.map (fun h => (rawMoveAt df h i, labelAt df h i)) })

end Labels

namespace Analysis

/-- Source `spread_ok` of `sanity_checks`: `(best_bid < best_ask) | best_bid.isna()
| best_ask.isna()`, where a comparison against NaN is false. -/
def spread_ok_row (r : Row) : Bool :=
  (match bestBidOf r, bestAskOf r with
   | some b, some a => decide (b < a)
   | _, _ => false) || (bestBidOf r).isNone || (bestAskOf r).isNone

/-- Source `sizes_ok` restricted to one row: every bid and ask size over the
`num_levels` columns is nonnegative. -/
def sizesOkRow (r : Row) (n : Nat) : Bool :=
  ((r.bid_sizes.take n).all (fun s => decide (0 ≤ s))) &&
    ((r.ask_sizes.take n).all (fun s => decide (0 ≤ s)))

/-- Bid prices masked and sent through `nan_to_num(nan=-inf)`:
`⊥` plays -inf. -/
def bidKeyList (r : Row) (n : Nat) : List (WithBot Int) :=
  (r.bid_prices.take n).map (fun p =>
    match maskBid p with
    | some v => (v : WithBot Int)
    | none => ⊥)

/-- Ask prices masked and sent through `nan_to_num(nan=inf)`: `⊤` plays inf. -/
def askKeyList (r : Row) (n : Nat) : List (WithTop Int) :=
  (r.ask_prices.take n).map (fun p =>
    match maskAsk p with
    | some v => (v : WithTop Int)
    | none => ⊤)

/-- Adjacent columns non-increasing (`vals[:, :-1] >= vals[:, 1:]`). -/
def chainGE : List (WithBot Int) → Bool
  | a :: b :: rest => decide (b ≤ a) && chainGE (b :: rest)
  | _ => true

/-- Adjacent columns non-decreasing (`vals[:, :-1] <= vals[:, 1:]`). -/
def chainLE : List (WithTop Int) → Bool
  | a :: b :: rest => decide (a ≤ b) && chainLE (b :: rest)
  | _ => true

/-- The diagnostic summary returned by `sanity_checks`. -/
structure Summary where
  rows : Nat
  spread_violations : Nat
  sizes_non_negative : Bool
  bid_monotonic : Bool
  ask_monotonic : Bool
  halt_rows : Nat
  deriving DecidableEq

/-- Source `sanity_checks`: pure diagnostics, counting violations without raising. -/
def sanity_checks (df : List Row) (n : Nat) : Summary :=
  { rows := df.length
    spread_violations := (df.filter (fun r => ! spread_ok_row r)).length
    sizes_non_negative := df.all (fun r => sizesOkRow r n)
    bid_monotonic := df.all (fun r => chainGE (bidKeyList r n))
    ask_monotonic := df.all (fun r => chainLE (askKeyList r n))
    halt_rows := (df.filter (fun r => decide (r.event_type = 7))).length }

/-- The spec's wording of a spread violation: both sides present after
masking and `best_bid ≥ best_ask`. -/
def spreadViolationSpec (r : Row) : Bool :=
  match bestBidOf r, bestAskOf r with
  | some b, some a => decide (a ≤ b)
  | _, _ => false

end Analysis

namespace LoadLobster

variable {α β : Type*}

/-- Splitting a parsed CSV into successive chunks of `c` rows, as the
`chunksize=chunk_rows` readers do.  Each step consumes at least one row
(`c > 0`), so the row count is enough fuel. -/
def chunkAux (c : Nat) : Nat → List α → List (List α)
  | 0, _ => []
  | _, [] => []
  | fuel + 1, l => l.take c :: chunkAux c fuel (l.drop c)

/-- The chunk sequence of one source file. -/
def chunkList (c : Nat) (l : List α) : List (List α) :=
  if c = 0 then [] else chunkAux c l.length l

/-- Source `load_full` at row granularity: raise iff the two sources disagree in
row count, else concatenate row-for-row. -/
def load_full (msg : List α) (book : List β) : Except String (List (α × β)) :=
  if msg.length ≠ book.length then
    .error "Message and orderbook rows are misaligned."
  else .ok (msg.zip book)

/-- The `for message_chunk, orderbook_chunk in zip(...)` loop of `iter_load`:
Python's `zip` stops at the shorter iterator, and each surviving pair is
length-checked before being yielded. -/
def zipChunks : List (List α) → List (List β) → Except String (List (List (α × β)))
  | m :: ms, b :: bs =>
      if m.length ≠ b.length then
        .error "Chunk size mismatch between message and orderbook."
      else (zipChunks ms bs).map (fun rest => m.zip b :: rest)
  | _, _ => .ok []

/-- Source `iter_load`: the chunked, per-chunk-validated streaming loader. -/
def iter_load (msg : List α) (book : List β) (c : Nat) :
    Except String (List (List (α × β))) :=
  zipChunks (chunkList c msg) (chunkList c book)

end LoadLobster

namespace Strategy

/-- Immutable per-run quoting parameters. -/
structure AvellanedaStoikovParams where
  gamma : ℝ
  sigma : ℝ
  kappa : ℝ
  horizon : ℝ

/-- Source `reservation_price`: `mid - inventory * gamma * sigma**2 * (horizon - t)`. -/
noncomputable def reservation_price (mid_price inventory : ℝ)
    (p : AvellanedaStoikovParams) (t : ℝ) : ℝ :=
  mid_price - inventory * p.gamma * p.sigma ^ 2 * (p.horizon - t)

/-- Source `optimal_spread`: `0.5 * (gamma * sigma**2 * (horizon - t)
+ (2 / gamma) * log (1 + gamma / kappa))`. -/
noncomputable def optimal_spread (p : AvellanedaStoikovParams) (t : ℝ) : ℝ :=
  0.5 * (p.gamma * p.sigma ^ 2 * (p.horizon - t) +
    (2 / p.gamma) * Real.log (1 + p.gamma / p.kappa))

/-- Order side, as passed to the engine. -/
inductive Side
  | Bid
  | Ask
  deriving DecidableEq

/-- One trade reported by the engine's `match()`. -/
structure Trade where
  aggressor_id : Nat
  price : ℚ
  qty : ℚ
  deriving DecidableEq

/-- The mutable accounting state of `run_backtest`. -/
structure SimState where
  inventory : ℚ
  cash : ℚ
  trades : Nat
  deriving DecidableEq

/-- The body of `for trade in matches` in `run_backtest`: `askId` is
`order_id - 1`, the id of the ask quote submitted last. -/
def applyTrade (askId : Nat) (s : SimState) (tr : Trade) : SimState :=
  if tr.aggressor_id = askId then
    { inventory := s.inventory - tr.qty
      cash := s.cash + tr.qty * tr.price
      trades := s.trades + 1 }
  else
    { inventory := s.inventory + tr.qty
      cash := s.cash - tr.qty * tr.price
      trades := s.trades + 1 }

/-- Settling every trade returned by one `match()` call, in order. -/
def settleMatches (askId : Nat) (s : SimState) (trs : List Trade) : SimState :=
  trs.foldl (applyTrade askId) s

/-- Source `final_mid`: 0 unless both final top-of-book prices are positive. -/
def finalMid (bb ba : ℚ) : ℚ := if 0 < bb ∧ 0 < ba then (bb + ba) / 2 else 0

/-- Source `pnl = cash + inventory * final_mid`. -/
def pnl (cash inventory fm : ℚ) : ℚ := cash + inventory * fm

/-- Length of the `snapshots` buffer after `n` processed events: append one,
then drop the oldest when the length exceeds 50. -/
def snapshotsAfter : Nat → Nat
  | 0 => 0
  | n + 1 =>
      if snapshotsAfter n + 1 > 50 then snapshotsAfter n + 1 - 1
      else snapshotsAfter n + 1

/-- The quote orders submitted while processing the event with 0-based index
`n`: none while `len(snapshots) < 50` after the append (the `continue`),
otherwise one unit-size bid and one unit-size ask. -/
def quotesOnEvent (n : Nat) : List (Side × Nat) :=
  if snapshotsAfter n + 1 < 50 then [] else [(Side.Bid, 1), (Side.Ask, 1)]

end Strategy

/-- A two-row frame with a defined mid everywhere, used at horizon 1: its
final row has no future mid. -/
def dfC1 : List Labels.MidRow := [⟨some 100, some 0⟩, ⟨some 101, some 0⟩]

/-- Claim C1: at the failing input (two rows, horizon 1), the final row's
`raw_move_H1` is indeed missing, but `label_H1` there is the plain integer 0
produced by `np.where` on NaN and the `int8` cast — not an explicit missing
marker.  The claim's second half is violated by the code. -/
theorem c1_last_rows_label_is_zero_not_missing :
    (Labels.generate_labels dfC1 [1]).getD 1 default =
      { base := ⟨some 101, some 0⟩, labels := [(none, 0)] } := by
  decide

/-- A row whose second ask level carries the sentinel price but a nonzero
stored size 7 (level-1 ask size is 5). -/
def rowC4 : Analysis.Row :=
  ⟨0, 1, 1, 1, [100, 99], [4, 6], [101, Analysis.DUMMY_ASK], [5, 7]⟩

/-- Claim C4: with `num_levels = 2, topk = 2`, the second ask level of
`rowC4` masks to missing, yet `depth_topk_ask` computed by
`compute_features` is `5 + 7 = 12`: the sentinel-priced level contributes
its stored size, not 0, because `_topk_depth` sums the raw (never masked)
size columns. -/
theorem c4_sentinel_level_size_included_in_depth :
    Analysis.maskAsk (rowC4.ask_prices.getD 1 0) = none ∧
    ((Analysis.compute_features [rowC4] 2 2).getD 0 default).depth_topk_ask = 12 ∧
    ((Analysis.compute_features [rowC4] 2 2).getD 0 default).depth_topk_ask ≠
      rowC4.ask_sizes.getD 0 0 := by
  refine ⟨by decide, ?_, ?_⟩ <;>
    simp [Analysis.compute_features, Analysis.featureRowAt, Analysis.depthTopkAskOf, rowC4]

/-- The spec's pinning parameters: gamma 0.1, sigma 0.02, kappa 1.5,
horizon 1. -/
noncomputable def asParamsC7 : Strategy.AvellanedaStoikovParams := ⟨0.1, 0.02, 1.5, 1⟩

/-- Claim C7: the reservation price at zero inventory is exactly the mid
(in particular 100 at the pinned parameters), and the optimal spread at the
pinned parameters is a fixed positive value. -/
theorem c7_avellaneda_stoikov_closed_forms :
    (∀ (mid t : ℝ) (p : Strategy.AvellanedaStoikovParams),
        Strategy.reservation_price mid 0 p t = mid) ∧
    Strategy.reservation_price 100 0 asParamsC7 0 = 100 ∧
    0 < Strategy.optimal_spread asParamsC7 0 := by
  refine ⟨fun mid t p => by simp [Strategy.reservation_price], ?_, ?_⟩
  · simp [Strategy.reservation_price]
  · have h2 : (0 : ℝ) < (2 / (0.1 : ℝ)) * Real.log (1 + 0.1 / 1.5) := by
      have := Real.log_pos (show (1 : ℝ) < 1 + 0.1 / 1.5 by norm_num)
      positivity
    have h1 : (0 : ℝ) < (0.1 : ℝ) * 0.02 ^ 2 * (1 - 0) := by norm_num
    unfold Strategy.optimal_spread asParamsC7
    simp only
    nlinarith [h1, h2]

/-- The snapshots buffer holds `min n 50` entries after `n` events. -/
theorem snapshotsAfter_min (n : Nat) : Strategy.snapshotsAfter n = min n 50 := by
  induction n with
  | zero => rfl
  | succ n ih =>
      rw [Strategy.snapshotsAfter, ih]
      split <;> omega

/-- Claim C9: with buffer width 50, no quote order is submitted while fewer
than 50 events have been processed, and on the 50th and every later event
exactly two unit-size quotes (one bid, one ask) are submitted. -/
theorem c9_warmup_then_two_quotes_per_event (i : Nat) :
    Strategy.quotesOnEvent i =
      if i + 1 < 50 then []
      else [(Strategy.Side.Bid, 1), (Strategy.Side.Ask, 1)] := by
  rw [Strategy.quotesOnEvent, snapshotsAfter_min]
  by_cases h : i + 1 < 50
  · rw [if_pos h, if_pos (by omega)]
  · rw [if_neg h, if_neg (by omega)]

/-- Success test for the modelled raising discipline. -/
def exceptOk {γ : Type*} : Except String γ → Bool
  | .ok _ => true
  | .error _ => false

/-- Mapping over the payload preserves success. -/
theorem exceptOk_map {γ δ : Type*} (f : γ → δ) (e : Except String γ) :
    exceptOk (e.map f) = exceptOk e := by
  cases e <;> rfl

/-- Source `zipChunks` succeeds exactly when every surviving chunk pair (Python's
`zip` drops unpaired trailing chunks) has equal row counts. -/
theorem zipChunks_ok_iff {α β : Type*} :
    ∀ (ms : List (List α)) (bs : List (List β)),
      exceptOk (LoadLobster.zipChunks ms bs) = true ↔
        ∀ p ∈ ms.zip bs, p.1.length = p.2.length := by
  intro ms
  induction ms with
  | nil => intro bs; simp [LoadLobster.zipChunks, exceptOk]
  | cons m ms ih =>
      intro bs
      cases bs with
      | nil => simp [LoadLobster.zipChunks, exceptOk]
      | cons b bs =>
          by_cases h : m.length = b.length
          · simp [LoadLobster.zipChunks, h, exceptOk_map, ih bs]
          · simp [LoadLobster.zipChunks, h, exceptOk]

/-- Claim C5 counterexample: a two-row message file against a one-row
orderbook file with `chunk_rows = 1`.  The chunk sequences are `[[10],[20]]`
and `[[30]]`; `zip` drops the unpaired second message chunk, the single
compared pair has equal lengths, and `iter_load` completes without raising —
yet the overall row counts differ.  The claim's "any overall row-count
mismatch is detected in both modes" is false. -/
theorem c5_counterexample_streaming_mismatch_undetected :
    exceptOk (LoadLobster.iter_load [(10 : Nat), 20] [(30 : Nat)] 1) = true ∧
    ([(10 : Nat), 20] : List Nat).length ≠ ([(30 : Nat)] : List Nat).length := by
  exact ⟨rfl, by decide⟩

/-- Claim C5 as amended: batch mode raises iff the row counts differ;
streaming mode raises iff some *compared* chunk pair differs in length —
trailing chunks of the longer source beyond the shorter one's chunk
sequence are dropped by `zip` without any check. -/
theorem c5_amended_alignment_detection {α β : Type*} (msg : List α) (book : List β)
    (c : Nat) :
    (exceptOk (LoadLobster.load_full msg book) = true ↔ msg.length = book.length) ∧
    (exceptOk (LoadLobster.iter_load msg book c) = true ↔
      ∀ p ∈ (LoadLobster.chunkList c msg).zip (LoadLobster.chunkList c book),
        p.1.length = p.2.length) := by
  constructor
  · unfold LoadLobster.load_full
    by_cases h : msg.length = book.length
    · simp [h, exceptOk]
    · simp [h, exceptOk]
  · exact zipChunks_ok_iff _ _

/-- Claim C6: `sanity_checks` is a pure total function returning the summary
record; its row count is the frame's length and its spread-violation count is
exactly the number of rows where both masked best prices are present and
`best_bid ≥ best_ask`. -/
theorem c6_spread_violations_counted_never_raised (df : List Analysis.Row) (n : Nat) :
    (Analysis.sanity_checks df n).rows = df.length ∧
    (Analysis.sanity_checks df n).spread_violations =
      (df.filter Analysis.spreadViolationSpec).length := by
  refine ⟨rfl, ?_⟩
  show (df.filter (fun r => ! Analysis.spread_ok_row r)).length = _
  congr 1
  apply List.filter_congr
  intro r _
  unfold Analysis.spread_ok_row Analysis.spreadViolationSpec
  cases hb : Analysis.bestBidOf r <;> cases ha : Analysis.bestAskOf r <;> simp
  rw [← decide_not]
  exact decide_eq_decide.mpr not_le.symm

/-- Folding the settlement over a trade list: trade count up by the list
length, inventory down by the ask-attributed quantities and up by the rest,
cash moving opposite at `qty * price`. -/
theorem settleMatches_spec (askId : Nat) (trs : List Strategy.Trade) :
    ∀ s : Strategy.SimState,
      (Strategy.settleMatches askId s trs).trades = s.trades + trs.length ∧
      (Strategy.settleMatches askId s trs).inventory =
        s.inventory
          + ((trs.filter (fun tr => decide (tr.aggressor_id ≠ askId))).map
              Strategy.Trade.qty).sum
          - ((trs.filter (fun tr => decide (tr.aggressor_id = askId))).map
              Strategy.Trade.qty).sum ∧
      (Strategy.settleMatches askId s trs).cash =
        s.cash
          + ((trs.filter (fun tr => decide (tr.aggressor_id = askId))).map
              (fun tr => tr.qty * tr.price)).sum
          - ((trs.filter (fun tr => decide (tr.aggressor_id ≠ askId))).map
              (fun tr => tr.qty * tr.price)).sum := by
  induction trs with
  | nil => intro s; simp [Strategy.settleMatches]
  | cons tr trs ih =>
      intro s
      obtain ⟨h1, h2, h3⟩ := ih (Strategy.applyTrade askId s tr)
      have hstep : Strategy.settleMatches askId s (tr :: trs) =
          Strategy.settleMatches askId (Strategy.applyTrade askId s tr) trs := rfl
      rw [hstep]
      by_cases hX : tr.aggressor_id = askId
      · refine ⟨?_, ?_, ?_⟩
        · rw [h1]; simp [Strategy.applyTrade, hX]; omega
        · rw [h2]; simp [Strategy.applyTrade, hX]; ring
        · rw [h3]; simp [Strategy.applyTrade, hX]; ring
      · refine ⟨?_, ?_, ?_⟩
        · rw [h1]; simp [Strategy.applyTrade, hX]; omega
        · rw [h2]; simp [Strategy.applyTrade, hX]; ring
        · rw [h3]; simp [Strategy.applyTrade, hX]; ring

/-- Claim C8: per-trade attribution against the ask id just placed
(`order_id - 1`), trade count incremented once per trade, and run-level
`pnl = cash + inventory * final_mid` with `final_mid = 0` when either final
top-of-book side is absent. -/
theorem c8_trade_settlement_and_pnl (askId : Nat) (s : Strategy.SimState)
    (trs : List Strategy.Trade) (bb ba : ℚ) :
    (Strategy.settleMatches askId s trs).trades = s.trades + trs.length ∧
    (Strategy.settleMatches askId s trs).inventory =
      s.inventory
        + ((trs.filter (fun tr => decide (tr.aggressor_id ≠ askId))).map
            Strategy.Trade.qty).sum
        - ((trs.filter (fun tr => decide (tr.aggressor_id = askId))).map
            Strategy.Trade.qty).sum ∧
    (Strategy.settleMatches askId s trs).cash =
      s.cash
        + ((trs.filter (fun tr => decide (tr.aggressor_id = askId))).map
            (fun tr => tr.qty * tr.price)).sum
        - ((trs.filter (fun tr => decide (tr.aggressor_id ≠ askId))).map
            (fun tr => tr.qty * tr.price)).sum ∧
    Strategy.pnl (Strategy.settleMatches askId s trs).cash
        (Strategy.settleMatches askId s trs).inventory (Strategy.finalMid bb ba) =
      (Strategy.settleMatches askId s trs).cash +
        (Strategy.settleMatches askId s trs).inventory *
          (if 0 < bb ∧ 0 < ba then (bb + ba) / 2 else 0) := by
  obtain ⟨h1, h2, h3⟩ := settleMatches_spec askId trs s
  exact ⟨h1, h2, h3, rfl⟩

/-- Reading every index of a list back through `getD` reproduces the list. -/
theorem map_getD_range {α : Type*} (l : List α) (d : α) :
    (List.range l.length).map (fun i => l.getD i d) = l := by
  apply List.ext_getElem
  · simp
  · intro i h1 h2
    simp [List.getD_eq_getElem?_getD, List.getElem?_eq_getElem h2]

/-- Claim C10: `compute_features` and `generate_labels` are purely additive:
row counts are preserved and the input columns (the `base` projection of each
output row) are exactly the input frame; in this pure embedding the caller's
frame is immutable by construction (`df.copy()` in the source). -/
theorem c10_feature_and_label_frames_additive (df : List Analysis.Row) (n k : Nat)
    (dfm : List Labels.MidRow) (hs : List Nat) :
    (Analysis.compute_features df n k).length = df.length ∧
    (Analysis.compute_features df n k).map Analysis.FeatureRow.base = df ∧
    (Labels.generate_labels dfm hs).length = dfm.length ∧
    (Labels.generate_labels dfm hs).map Labels.LabeledRow.base = dfm := by
  refine ⟨by simp [Analysis.compute_features], ?_,
    by simp [Labels.generate_labels], ?_⟩
  · rw [Analysis.compute_features, List.map_map]
    exact map_getD_range df default
  · rw [Labels.generate_labels, List.map_map]
    exact map_getD_range dfm default

/-- The pointer advance stays within `[left, idx]`, skips exactly the
entries below the bound, and stops either at `idx` or at an entry at or
above the bound. -/
theorem advLAux_spec (t : List Int) (b : Int) (idx : Nat) :
    ∀ fuel left, idx - left ≤ fuel → left ≤ idx →
      left ≤ Analysis.advLAux t b idx fuel left ∧
      Analysis.advLAux t b idx fuel left ≤ idx ∧
      (∀ j, left ≤ j → j < Analysis.advLAux t b idx fuel left → t.getD j 0 < b) ∧
      (Analysis.advLAux t b idx fuel left < idx →
        ¬ t.getD (Analysis.advLAux t b idx fuel left) 0 < b) := by
  intro fuel
  induction fuel with
  | zero =>
      intro left hf hl
      have hle : left = idx := by omega
      subst hle
      simp only [Analysis.advLAux]
      exact ⟨le_rfl, le_rfl, fun j hj1 hj2 => absurd hj2 (by omega),
        fun hc => absurd hc (by omega)⟩
  | succ fuel ih =>
      intro left hf hl
      simp only [Analysis.advLAux]
      by_cases h1 : left < idx
      · rw [if_pos h1]
        by_cases h2 : t.getD left 0 < b
        · rw [if_pos h2]
          obtain ⟨g1, g2, g3, g4⟩ := ih (left + 1) (by omega) (by omega)
          refine ⟨by omega, g2, ?_, g4⟩
          intro j hj1 hj2
          rcases Nat.eq_or_lt_of_le hj1 with hj | hj
          · rw [← hj]; exact h2
          · exact g3 j (by omega) hj2
        · rw [if_neg h2]
          exact ⟨le_rfl, le_of_lt h1, fun j hj1 hj2 => absurd hj2 (by omega), fun _ => h2⟩
      · rw [if_neg h1]
        exact ⟨le_rfl, hl, fun j hj1 hj2 => absurd hj2 (by omega),
          fun hc => absurd hc (by omega)⟩

/-- Source `advL` unpacked through its fuel bound. -/
theorem advL_spec (t : List Int) (b : Int) (idx left : Nat) (hl : left ≤ idx) :
    left ≤ Analysis.advL t b idx left ∧
    Analysis.advL t b idx left ≤ idx ∧
    (∀ j, left ≤ j → j < Analysis.advL t b idx left → t.getD j 0 < b) ∧
    (Analysis.advL t b idx left < idx →
      ¬ t.getD (Analysis.advL t b idx left) 0 < b) :=
  advLAux_spec t b idx (idx - left) left le_rfl hl

/-- The sweep emits one count per remaining index. -/
theorem erGoAux_length (t : List Int) (W : Int) :
    ∀ fuel idx left, t.length - idx ≤ fuel →
      (Analysis.erGoAux t W fuel idx left).length = t.length - idx := by
  intro fuel
  induction fuel with
  | zero =>
      intro idx left hf
      simp only [Analysis.erGoAux, List.length_nil]
      omega
  | succ fuel ih =>
      intro idx left hf
      simp only [Analysis.erGoAux]
      by_cases h : idx < t.length
      · rw [if_pos h]
        simp only [List.length_cons, ih (idx + 1) _ (by omega)]
        omega
      · rw [if_neg h]
        simp only [List.length_nil]
        omega

/-- Counting a monotone-boolean predicate over `range n`: below `m` it is
false, from `m` on it is true, so the count is `n - m`. -/
theorem length_filter_range (p : Nat → Bool) :
    ∀ n m : Nat, m ≤ n → (∀ j, j < m → p j = false) →
      (∀ j, m ≤ j → j < n → p j = true) →
      ((List.range n).filter p).length = n - m := by
  intro n
  induction n with
  | zero =>
      intro m hm _ _
      simp only [List.range_zero, List.filter_nil, List.length_nil]
      omega
  | succ n ih =>
      intro m hm hlo hhi
      rw [List.range_succ, List.filter_append]
      by_cases h : m ≤ n
      · have hpn : p n = true := hhi n h (by omega)
        simp only [List.length_append, List.filter_cons, hpn, if_pos, List.filter_nil,
          List.length_cons, List.length_nil,
          ih m h hlo (fun j hj1 hj2 => hhi j hj1 (by omega))]
        omega
      · have hm1 : m = n + 1 := by omega
        subst hm1
        have hpn : p n = false := hlo n (by omega)
        have hz : ((List.range n).filter p).length = n - n :=
          ih n le_rfl (fun j hj => hlo j (by omega))
            (fun j hj1 hj2 => absurd hj1 (by omega))
        simp only [List.length_append, List.filter_cons, hpn, List.filter_nil,
          Bool.false_eq_true, if_false, List.length_nil, hz]
        omega

/-- Main invariant of the two-pointer sweep: entering index `idx` with a
left pointer whose skipped prefix lies strictly below the current window,
every later index `i` receives exactly the brute-force window count. -/
theorem erGoAux_correct (t : List Int) (W : Int)
    (hsort : ∀ k, k < t.length → ∀ j, j ≤ k → t.getD j 0 ≤ t.getD k 0)
    (hW : 0 ≤ W) :
    ∀ fuel idx left, t.length - idx ≤ fuel → left ≤ idx →
      (∀ j, j < left → t.getD j 0 < t.getD idx 0 - W) →
      ∀ i, idx ≤ i → i < t.length →
        (Analysis.erGoAux t W fuel idx left).getD (i - idx) 0 =
          Analysis.bruteCount t W i := by
  intro fuel
  induction fuel with
  | zero =>
      intro idx left hf hl hinv i hi1 hi2
      omega
  | succ fuel ih =>
      intro idx left hf hl hinv i hi1 hi2
      have hidx : idx < t.length := by omega
      simp only [Analysis.erGoAux]
      rw [if_pos hidx]
      obtain ⟨g1, g2, g3, g4⟩ := advL_spec t (t.getD idx 0 - W) idx left hl
      rcases Nat.eq_or_lt_of_le hi1 with hii | hii
      · subst hii
        simp only [Nat.sub_self, List.getD_cons_zero]
        rw [Analysis.bruteCount,
          length_filter_range _ (idx + 1) (Analysis.advL t (t.getD idx 0 - W) idx left)
            (by omega) ?_ ?_]
        · omega
        · intro j hj
          simp only [decide_eq_false_iff_not, not_le]
          by_cases hjl : j < left
          · exact hinv j hjl
          · exact g3 j (by omega) hj
        · intro j hj1 hj2
          simp only [decide_eq_true_eq]
          rcases Nat.lt_or_ge (Analysis.advL t (t.getD idx 0 - W) idx left) idx with hlt | hge
          · have hb := g4 hlt
            have hup : t.getD (Analysis.advL t (t.getD idx 0 - W) idx left) 0 ≤ t.getD j 0 :=
              hsort j (by omega) _ hj1
            omega
          · have hji : j = idx := by omega
            subst hji
            omega
      · have hsub : i - idx = (i - (idx + 1)) + 1 := by omega
        rw [hsub, List.getD_cons_succ]
        refine ih (idx + 1) (Analysis.advL t (t.getD idx 0 - W) idx left)
          (by omega) (by omega) ?_ i (by omega) hi2
        intro j hj
        have hmono : t.getD idx 0 ≤ t.getD (idx + 1) 0 :=
          hsort (idx + 1) (by omega) idx (by omega)
        have hj2 : t.getD j 0 < t.getD idx 0 - W := by
          by_cases hjl : j < left
          · exact hinv j hjl
          · exact g3 j (by omega) hj
        omega

/-- Indexing `rolling_event_rate` inside the frame: the count at `i`
divided by the window length in seconds. -/
theorem rolling_event_rate_getD (t : List Int) (W : Int) (i : Nat)
    (h : i < t.length) :
    (Analysis.rolling_event_rate t W).getD i 0 =
      (((Analysis.erCounts t W).getD i 0 : ℕ) : ℚ) / ((W : ℚ) / 1000000000) := by
  have hlen : (Analysis.erCounts t W).length = t.length := by
    have h2 := erGoAux_length t W t.length 0 0 (by omega)
    simpa [Analysis.erCounts] using h2
  have hElem : i < (Analysis.erCounts t W).length := by rw [hlen]; exact h
  rw [Analysis.rolling_event_rate]
  rw [List.getD_eq_getElem _ _
    (show i < ((Analysis.erCounts t W).map
        (fun (c : Nat) => (c : ℚ) / ((W : ℚ) / 1000000000))).length by
      simpa using hElem)]
  rw [List.getElem_map]
  rw [List.getD_eq_getElem _ _ hElem]

/-- Claim C3: on a non-decreasing timestamp sequence and nonnegative window,
the two-pointer `_rolling_event_rate` matches the brute-force reference at
every index: the count of events `j ≤ i` with `time[j] ≥ time[i] - window`,
divided by the window length in seconds. -/
theorem c3_two_pointer_event_rate_matches_brute_force (t : List Int) (W : Int)
    (hsort : ∀ k, k < t.length → ∀ j, j ≤ k → t.getD j 0 ≤ t.getD k 0)
    (hW : 0 ≤ W) (i : Nat) (hi : i < t.length) :
    (Analysis.rolling_event_rate t W).getD i 0 =
      (Analysis.bruteCount t W i : ℚ) / ((W : ℚ) / 1000000000) := by
  rw [rolling_event_rate_getD t W i hi]
  congr 1
  have hmain := erGoAux_correct t W hsort hW t.length 0 0 (by omega) (by omega)
    (fun j hj => absurd hj (by omega)) i (by omega) hi
  rw [Analysis.erCounts]
  exact_mod_cast hmain

/-- Prefix-equal lists agree pointwise on the prefix. -/
theorem getD_of_take_eq {α : Type*} (l1 l2 : List α) (m : Nat) (d : α)
    (h : l1.take m = l2.take m) : ∀ j, j < m → l1.getD j d = l2.getD j d := by
  intro j hj
  rw [List.getD_eq_getElem?_getD, List.getD_eq_getElem?_getD]
  have e1 : l1[j]? = (l1.take m)[j]? := by rw [List.getElem?_take, if_pos hj]
  have e2 : l2[j]? = (l2.take m)[j]? := by rw [List.getElem?_take, if_pos hj]
  rw [e1, e2, h]

/-- The pointer advance reads only entries strictly before `idx`. -/
theorem advLAux_congr (t1 t2 : List Int) (b : Int) (idx : Nat)
    (h : ∀ j, j < idx → t1.getD j 0 = t2.getD j 0) :
    ∀ fuel left,
      Analysis.advLAux t1 b idx fuel left = Analysis.advLAux t2 b idx fuel left := by
  intro fuel
  induction fuel with
  | zero => intro left; rfl
  | succ fuel ih =>
      intro left
      simp only [Analysis.advLAux]
      by_cases h1 : left < idx
      · rw [if_pos h1, if_pos h1, h left h1]
        by_cases h2 : t2.getD left 0 < b
        · rw [if_pos h2, if_pos h2, ih]
        · rw [if_neg h2, if_neg h2]
      · rw [if_neg h1, if_neg h1]

/-- The head count emitted at `idx` reads only entries up to `idx`. -/
theorem erGoAux_head_congr (t1 t2 : List Int) (W : Int) (f1 f2 idx left : Nat)
    (h1 : idx < t1.length) (h2 : idx < t2.length)
    (heq : ∀ j, j ≤ idx → t1.getD j 0 = t2.getD j 0) :
    (Analysis.erGoAux t1 W (f1 + 1) idx left).getD 0 0 =
      (Analysis.erGoAux t2 W (f2 + 1) idx left).getD 0 0 := by
  simp only [Analysis.erGoAux]
  rw [if_pos h1, if_pos h2]
  simp only [List.getD_cons_zero]
  rw [heq idx le_rfl, Analysis.advL, Analysis.advL,
    advLAux_congr t1 t2 _ idx (fun j hj => heq j (by omega))]

/-- The count at index `i` of the sweep depends only on timestamps at
indices at most `i` (and not on the fuel, past the point of reaching `i`). -/
theorem erGoAux_getD_congr (t1 t2 : List Int) (W : Int) :
    ∀ d fuel1 fuel2 idx left i, i - idx ≤ d → idx ≤ i →
      i < t1.length → i < t2.length →
      i + 1 - idx ≤ fuel1 → i + 1 - idx ≤ fuel2 →
      (∀ j, j ≤ i → t1.getD j 0 = t2.getD j 0) →
      (Analysis.erGoAux t1 W fuel1 idx left).getD (i - idx) 0 =
        (Analysis.erGoAux t2 W fuel2 idx left).getD (i - idx) 0 := by
  intro d
  induction d with
  | zero =>
      intro fuel1 fuel2 idx left i hd hi hl1 hl2 hf1 hf2 heq
      have hii : idx = i := by omega
      subst hii
      cases fuel1 with
      | zero => omega
      | succ f1 =>
          cases fuel2 with
          | zero => omega
          | succ f2 =>
              simpa [Nat.sub_self] using
                erGoAux_head_congr t1 t2 W f1 f2 idx left hl1 hl2 heq
  | succ d ih =>
      intro fuel1 fuel2 idx left i hd hi hl1 hl2 hf1 hf2 heq
      rcases Nat.eq_or_lt_of_le hi with hii | hii
      · subst hii
        cases fuel1 with
        | zero => omega
        | succ f1 =>
            cases fuel2 with
            | zero => omega
            | succ f2 =>
                simpa [Nat.sub_self] using
                  erGoAux_head_congr t1 t2 W f1 f2 idx left hl1 hl2
                    (fun j hj => heq j hj)
      · cases fuel1 with
        | zero => omega
        | succ f1 =>
            cases fuel2 with
            | zero => omega
            | succ f2 =>
                have hidx1 : idx < t1.length := by omega
                have hidx2 : idx < t2.length := by omega
                simp only [Analysis.erGoAux]
                rw [if_pos hidx1, if_pos hidx2]
                have hsub : i - idx = (i - (idx + 1)) + 1 := by omega
                rw [hsub, List.getD_cons_succ, List.getD_cons_succ]
                have hadv : Analysis.advL t1 (t1.getD idx 0 - W) idx left =
                    Analysis.advL t2 (t2.getD idx 0 - W) idx left := by
                  rw [heq idx (by omega), Analysis.advL, Analysis.advL]
                  exact advLAux_congr t1 t2 _ idx (fun j hj => heq j (by omega)) _ _
                rw [hadv]
                exact ih f1 f2 (idx + 1) _ i (by omega) (by omega) hl1 hl2
                  (by omega) (by omega) heq

/-- Causality of the two-pointer counts: position `i` is a function of the
first `i + 1` timestamps. -/
theorem erCounts_getD_congr (t1 t2 : List Int) (W : Int) (i : Nat)
    (h1 : i < t1.length) (h2 : i < t2.length)
    (heq : ∀ j, j ≤ i → t1.getD j 0 = t2.getD j 0) :
    (Analysis.erCounts t1 W).getD i 0 = (Analysis.erCounts t2 W).getD i 0 := by
  have h := erGoAux_getD_congr t1 t2 W i t1.length t2.length 0 0 i (by omega)
    (by omega) h1 h2 (by omega) (by omega) heq
  simpa [Analysis.erCounts] using h

/-- Indexing the `time_ns` column. -/
theorem times_getD (df : List Analysis.Row) (j : Nat) (h : j < df.length) :
    (Analysis.times df).getD j 0 = (df.getD j default).time_ns := by
  rw [Analysis.times,
    List.getD_eq_getElem _ _
      (show j < (df.map (·.time_ns)).length by simpa using h),
    List.getElem_map, List.getD_eq_getElem _ _ h]

/-- Indexing `compute_features` inside the frame. -/
theorem compute_features_getD (df : List Analysis.Row) (n k i : Nat)
    (h : i < df.length) :
    (Analysis.compute_features df n k).getD i default =
      Analysis.featureRowAt df n k i := by
  rw [Analysis.compute_features,
    List.getD_eq_getElem _ _
      (show i < ((List.range df.length).map (Analysis.featureRowAt df n k)).length by
        simpa using h),
    List.getElem_map, List.getElem_range]

/-- Claim C2: `compute_features` is causal.  If two frames agree on rows
`0..i` (any modification of later rows), every derived feature value of row
`i` — best bid/ask, mid, spread, both imbalances, the depth aggregates,
microprice, event rate, order-flow imbalance and realized volatility —
is unchanged. -/
theorem c2_compute_features_causal (df1 df2 : List Analysis.Row) (n k i : Nat)
    (h1 : i < df1.length) (h2 : i < df2.length)
    (hpre : df1.take (i + 1) = df2.take (i + 1)) :
    (Analysis.compute_features df1 n k).getD i default =
      (Analysis.compute_features df2 n k).getD i default := by
  rw [compute_features_getD df1 n k i h1, compute_features_getD df2 n k i h2]
  have hget : ∀ j, j ≤ i → df1.getD j default = df2.getD j default :=
    fun j hj => getD_of_take_eq df1 df2 (i + 1) default hpre j (by omega)
  have hrow : df1.getD i default = df2.getD i default := hget i le_rfl
  have htimes : ∀ j, j ≤ i →
      (Analysis.times df1).getD j 0 = (Analysis.times df2).getD j 0 := by
    intro j hj
    rw [times_getD df1 j (by omega), times_getD df2 j (by omega), hget j hj]
  have hrate : (Analysis.rolling_event_rate (Analysis.times df1)
        Analysis.window_ns).getD i 0 =
      (Analysis.rolling_event_rate (Analysis.times df2) Analysis.window_ns).getD i 0 := by
    rw [rolling_event_rate_getD _ _ i (by simpa [Analysis.times] using h1),
      rolling_event_rate_getD _ _ i (by simpa [Analysis.times] using h2)]
    congr 2
    exact erCounts_getD_congr _ _ _ i (by simpa [Analysis.times] using h1)
      (by simpa [Analysis.times] using h2) htimes
  have hwin : Analysis.windowStart i 100 + min (i + 1) 100 = i + 1 := by
    rw [Analysis.windowStart]; omega
  have hofi : Analysis.orderFlowImbAt df1 i = Analysis.orderFlowImbAt df2 i := by
    rw [Analysis.orderFlowImbAt, Analysis.orderFlowImbAt]
    congr 1
    apply List.map_congr_left
    intro j hj
    have hji : j ≤ i := by
      have hm := List.mem_range'_1.mp hj
      omega
    rw [hget j hji]
  have hmidr : ∀ j, j ≤ i → Analysis.midRetAt df1 j = Analysis.midRetAt df2 j := by
    intro j hj
    rw [Analysis.midRetAt, Analysis.midRetAt]
    by_cases hj0 : j = 0
    · simp [hj0]
    · rw [if_neg hj0, if_neg hj0, Analysis.midAt, Analysis.midAt, Analysis.midAt,
        Analysis.midAt, hget (j - 1) (by omega), hget j hj]
  have hvar : Analysis.realizedVarAt df1 i = Analysis.realizedVarAt df2 i := by
    rw [Analysis.realizedVarAt, Analysis.realizedVarAt]
    by_cases h0 : i = 0
    · simp [h0]
    · rw [if_neg h0, if_neg h0]
      congr 1
      apply List.map_congr_left
      intro j hj
      have hji : j ≤ i := by
        have hm := List.mem_range'_1.mp hj
        omega
      exact hmidr j hji
  have hvol : Analysis.realizedVolAt df1 i = Analysis.realizedVolAt df2 i := by
    rw [Analysis.realizedVolAt, Analysis.realizedVolAt, hvar]
  rw [Analysis.featureRowAt, Analysis.featureRowAt]
  simp only [Analysis.FeatureRow.mk.injEq]
  exact ⟨hrow, by rw [hrow], by rw [hrow], by rw [hrow], by rw [hrow], by rw [hrow],
    by rw [hrow], by rw [hrow], by rw [hrow], by rw [hrow], by rw [hrow],
    hrate, hofi, hvol⟩

/-- Shared first row for the C2 witness frames. -/
def rwA : Analysis.Row := ⟨0, 1, 10, 1, [100], [5], [101], [6]⟩

/-- Second row of the first C2 witness frame. -/
def rwB : Analysis.Row := ⟨1000, 1, 3, 1, [99], [4], [102], [7]⟩

/-- A different second row for the second C2 witness frame. -/
def rwC : Analysis.Row := ⟨2000, 4, 8, -1, [98], [2], [103], [9]⟩

/-- Witness for C2: two concrete frames agreeing on row 0 and differing at
row 1 produce identical feature rows at index 0. -/
theorem c2_witness :
    0 < ([rwA, rwB] : List Analysis.Row).length ∧
    0 < ([rwA, rwC] : List Analysis.Row).length ∧
    ([rwA, rwB] : List Analysis.Row).take 1 = ([rwA, rwC] : List Analysis.Row).take 1 ∧
    (Analysis.compute_features [rwA, rwB] 1 1).getD 0 default =
      (Analysis.compute_features [rwA, rwC] 1 1).getD 0 default :=
  ⟨by decide, by decide, rfl,
    c2_compute_features_causal [rwA, rwB] [rwA, rwC] 1 1 0 (by decide) (by decide) rfl⟩

/-- A concrete non-decreasing timestamp list for the C3 witness. -/
def tC3 : List Int := [0, 400000000, 1500000000, 1600000000]

/-- Witness for C3 at `tC3`, a 1-second window and index 3. -/
theorem c3_witness :
    (Analysis.rolling_event_rate tC3 1000000000).getD 3 0 =
      (Analysis.bruteCount tC3 1000000000 3 : ℚ) / ((1000000000 : ℚ) / 1000000000) :=
  c3_two_pointer_event_rate_matches_brute_force tC3 1000000000 (by decide) (by decide)
    3 (by decide)
